import Mathlib

/-!
Verification development for the Suez_POC dynamic-form component
(`src/force-app/main/default/lwc/woDynamicForm/woDynamicForm.js`).

The file `woDynamicForm.js` contains two successive revisions of the same
LWC component, separated by a document marker:
* revision 1 (lines 1-265): the visibility engine (`reEvaluateVisibility`),
  the name-dialect criteria regex (`CRITERIA_REGEX`), `normalizeCriteria`,
  `evaluateCriteria`, and a first schema builder (`wiredForm`);
* revision 2 (lines 266-635): a refined schema builder (minimum order on
  duplicate sections, NaN cleaned to Infinity, case-insensitive name
  tie-break, `isOther` flag, error path clearing the schema) and the
  review panel plumbing.

Both revisions are embedded below.  JavaScript machine doubles are
modelled exactly on the fragment the component exercises: an inductive
`JsNumber` with NaN and the two infinities over exact rationals; string
to number coercion follows the ECMAScript `StringNumericLiteral` grammar
(decimal with fraction/exponent, Infinity, hex/octal/binary prefixes).
`toLowerCase` is modelled on the ASCII range, and string comparison is
code-point lexicographic (JS compares UTF-16 units; the two agree on the
basic multilingual plane, which covers every string this component
handles).  `Array.prototype.sort` with a consistent comparator is a
stable sort, modelled by `List.insertionSort` (also stable).
-/

namespace Suez

/-- JavaScript `\s` (also the character class trimmed by
`String.prototype.trim` and by `Number`'s string coercion):
whitespace and line terminators. -/
def jsSpace (c : Char) : Bool :=
  let n := c.toNat
  n = 9 || n = 10 || n = 11 || n = 12 || n = 13 || n = 32 || n = 160 ||
  n = 5760 || (8192 ≤ n && n ≤ 8202) || n = 8232 || n = 8233 ||
  n = 8239 || n = 8287 || n = 12288 || n = 65279

/-- JavaScript line terminators (the characters `.` does not match). -/
def jsLineTerm (c : Char) : Bool :=
  let n := c.toNat
  n = 10 || n = 13 || n = 8232 || n = 8233

/-- Trim JS whitespace from both ends of a character list. -/
def jsTrimList (cs : List Char) : List Char :=
  ((cs.dropWhile jsSpace).reverse.dropWhile jsSpace).reverse

/-- JavaScript `String.prototype.trim`. -/
def jsTrim (s : String) : String :=
  String.mk (jsTrimList s.data)

/-- `toLowerCase`, modelled on the ASCII range. -/
def charToLower (c : Char) : Char :=
  if 'A' ≤ c ∧ c ≤ 'Z' then Char.ofNat (c.toNat + 32) else c

/-- JavaScript `String.prototype.toLowerCase` (ASCII range). -/
def jsToLower (s : String) : String :=
  String.mk (s.data.map charToLower)

/-- A live field value as the component stores it: `event.target.checked`
for checkboxes (a boolean), `event.target.value` otherwise (a string).
`null`/`undefined` is `Option.none` at the use sites. -/
inductive JsVal where
  | str (s : String)
  | bool (b : Bool)
deriving DecidableEq

/-- JavaScript `String(v)` on the values above. -/
def jsValToString : JsVal → String
  | .str s => s
  | .bool true => "true"
  | .bool false => "false"

/-- An exact fraction: numerator over `den1 + 1` (the denominator is
positive by representation).  Fractions are not normalized; equality of
values is `fracEqv` (cross multiplication), exactly the number equality
JavaScript's `===`/`!==` tests. -/
structure Frac where
  num : Int
  den1 : Nat
deriving DecidableEq

/-- The (positive) denominator, as an integer. -/
def Frac.denZ (x : Frac) : Int := (x.den1 : Int) + 1

def Frac.ofNat (n : Nat) : Frac := ⟨(n : Int), 0⟩

def Frac.neg (x : Frac) : Frac := ⟨-x.num, x.den1⟩

def Frac.add (x y : Frac) : Frac :=
  ⟨x.num * y.denZ + y.num * x.denZ, x.den1 * y.den1 + x.den1 + y.den1⟩

def Frac.mul (x y : Frac) : Frac :=
  ⟨x.num * y.num, x.den1 * y.den1 + x.den1 + y.den1⟩

def Frac.sub (x y : Frac) : Frac := Frac.add x (Frac.neg y)

/-- Value-level `<`. -/
def fracLt (x y : Frac) : Bool := decide (x.num * y.denZ < y.num * x.denZ)

/-- Value-level `<=`. -/
def fracLe (x y : Frac) : Bool := decide (x.num * y.denZ ≤ y.num * x.denZ)

/-- Value-level equality (JavaScript `===` on numbers). -/
def fracEqv (x y : Frac) : Bool := decide (x.num * y.denZ = y.num * x.denZ)

/-- A JavaScript number as this component exercises it: NaN, the two
infinities, or an exact finite value (the component only ever parses
decimal literals, compares and takes minima, so exact fractions are a
faithful carrier). -/
inductive JsNumber where
  | nan
  | posInf
  | negInf
  | num (q : Frac)
deriving DecidableEq

def JsNumber.isNan : JsNumber → Bool
  | .nan => true
  | _ => false

/-- Strict `<` on JS numbers (`NaN` compares false to everything). -/
def jsNLt : JsNumber → JsNumber → Bool
  | .nan, _ => false
  | _, .nan => false
  | .negInf, .negInf => false
  | .negInf, _ => true
  | _, .negInf => false
  | .posInf, _ => false
  | .num _, .posInf => true
  | .num a, .num b => fracLt a b

/-- `<=` on JS numbers (`NaN` compares false to everything). -/
def jsNLe : JsNumber → JsNumber → Bool
  | .nan, _ => false
  | _, .nan => false
  | .negInf, _ => true
  | _, .negInf => false
  | _, .posInf => true
  | .posInf, _ => false
  | .num a, .num b => fracLe a b

/-- JavaScript `Math.min` on two arguments: NaN absorbs, otherwise the
smaller value. -/
def jsMin : JsNumber → JsNumber → JsNumber
  | .nan, _ => .nan
  | _, .nan => .nan
  | .negInf, _ => .negInf
  | _, .negInf => .negInf
  | .posInf, b => b
  | a, .posInf => a
  | .num a, .num b => .num (if fracLe a b then a else b)

/-- JavaScript subtraction, as used by the revision-1 sort comparators. -/
def jsSub : JsNumber → JsNumber → JsNumber
  | .nan, _ => .nan
  | _, .nan => .nan
  | .posInf, .posInf => .nan
  | .negInf, .negInf => .nan
  | .posInf, _ => .posInf
  | .negInf, _ => .negInf
  | _, .posInf => .negInf
  | _, .negInf => .posInf
  | .num a, .num b => .num (Frac.sub a b)

def isDigitChar (c : Char) : Bool := '0' ≤ c && c ≤ '9'

def digitsToNat (cs : List Char) : Nat :=
  cs.foldl (fun a c => a * 10 + (c.toNat - 48)) 0

def isHexDigitChar (c : Char) : Bool :=
  ('0' ≤ c && c ≤ '9') || ('a' ≤ c && c ≤ 'f') || ('A' ≤ c && c ≤ 'F')

def hexDigitVal (c : Char) : Nat :=
  if '0' ≤ c && c ≤ '9' then c.toNat - 48
  else if 'a' ≤ c && c ≤ 'f' then c.toNat - 87
  else c.toNat - 55

def hexDigitsToNat (cs : List Char) : Nat :=
  cs.foldl (fun a c => a * 16 + hexDigitVal c) 0

def baseDigitsToNat (b : Nat) (cs : List Char) : Nat :=
  cs.foldl (fun a c => a * b + (c.toNat - 48)) 0

/-- `10 ^ e` as an exact fraction, for an integer exponent. -/
def pow10 (e : Int) : Frac :=
  if 0 ≤ e then ⟨((10 ^ e.toNat : ℕ) : Int), 0⟩
  else ⟨1, 10 ^ (-e).toNat - 1⟩

/-- The optional exponent tail of a decimal literal: empty, or
`e`/`E` followed by an optionally signed nonempty digit string,
consuming the whole input. -/
def parseExpTail (cs : List Char) : Option Int :=
  match cs with
  | [] => some 0
  | e :: rest =>
    if e = 'e' ∨ e = 'E' then
      let (sgn, ds) : (Bool × List Char) :=
        match rest with
        | '+' :: r => (false, r)
        | '-' :: r => (true, r)
        | r => (false, r)
      if ds ≠ [] ∧ ds.all isDigitChar then
        some (if sgn then -(digitsToNat ds : Int) else (digitsToNat ds : Int))
      else none
    else none

/-- The digits after the decimal point, as the fraction
`digits / 10 ^ length`. -/
def fracDigitsVal (ds : List Char) : Frac :=
  ⟨(digitsToNat ds : Int), 10 ^ ds.length - 1⟩

/-- An unsigned ECMAScript `StrUnsignedDecimalLiteral` (without the
`Infinity` alternative), consuming the whole input:
`digits [. digits] [exp]` or `. digits [exp]`. -/
def parseDecimal (cs : List Char) : Option Frac :=
  let intDigits := cs.takeWhile isDigitChar
  let rest := cs.drop intDigits.length
  if intDigits = [] then
    match rest with
    | '.' :: r =>
      let fracDigits := r.takeWhile isDigitChar
      if fracDigits = [] then none
      else
        (parseExpTail (r.drop fracDigits.length)).map fun e =>
          Frac.mul (fracDigitsVal fracDigits) (pow10 e)
    | _ => none
  else
    match rest with
    | '.' :: r =>
      let fracDigits := r.takeWhile isDigitChar
      (parseExpTail (r.drop fracDigits.length)).map fun e =>
        Frac.mul (Frac.add (Frac.ofNat (digitsToNat intDigits))
          (fracDigitsVal fracDigits)) (pow10 e)
    | r =>
      (parseExpTail r).map fun e =>
        Frac.mul (Frac.ofNat (digitsToNat intDigits)) (pow10 e)

/-- Unsigned decimal literal or `Infinity`. -/
def parseDecOrInf (cs : List Char) : Option JsNumber :=
  if cs = "Infinity".data then some .posInf
  else (parseDecimal cs).map .num

def negateJsNumber : JsNumber → JsNumber
  | .nan => .nan
  | .posInf => .negInf
  | .negInf => .posInf
  | .num q => .num (Frac.neg q)

/-- JavaScript `Number(s)` on a string: trim whitespace; empty means 0;
otherwise an optionally signed decimal literal or `Infinity`, or an
unsigned hex/octal/binary literal; anything else is NaN. -/
def jsParseNumber (s : String) : JsNumber :=
  let cs := jsTrimList s.data
  match cs with
  | [] => .num (Frac.ofNat 0)
  | '+' :: rest => (parseDecOrInf rest).getD .nan
  | '-' :: rest => ((parseDecOrInf rest).map negateJsNumber).getD .nan
  | '0' :: c :: rest =>
    if c = 'x' ∨ c = 'X' then
      if rest ≠ [] ∧ rest.all isHexDigitChar then
        .num (Frac.ofNat (hexDigitsToNat rest)) else .nan
    else if c = 'o' ∨ c = 'O' then
      if rest ≠ [] ∧ rest.all (fun d => '0' ≤ d && d ≤ '7') then
        .num (Frac.ofNat (baseDigitsToNat 8 rest)) else .nan
    else if c = 'b' ∨ c = 'B' then
      if rest ≠ [] ∧ rest.all (fun d => d = '0' || d = '1') then
        .num (Frac.ofNat (baseDigitsToNat 2 rest)) else .nan
    else (parseDecOrInf cs).getD .nan
  | _ => (parseDecOrInf cs).getD .nan

/-- JavaScript `Number(v)` on a live field value (`Number(true) = 1`,
`Number(false) = 0`). -/
def jsValToNumber : JsVal → JsNumber
  | .str s => jsParseNumber s
  | .bool true => .num (Frac.ofNat 1)
  | .bool false => .num (Frac.ofNat 0)

/-- `o?.value || dflt` — nullish or empty string falls back. -/
def jsOrDefault (o : Option String) (dflt : String) : String :=
  match o with
  | none => dflt
  | some s => if s = "" then dflt else s

/-- `o?.value || ''`. -/
def jsOrEmpty (o : Option String) : String :=
  match o with
  | none => ""
  | some s => s

/-- The opening brace character (code point 123). -/
def lbrace : Char := Char.ofNat 123

/-- The closing brace character (code point 125). -/
def rbrace : Char := Char.ofNat 125

/-!  ## Data model of revision 1 (lines 32-265)

One raw metadata row, as the GraphQL wire returns it
(each `..._c` field's `value`, possibly null). -/

structure RawNode where
  Asset_Attribute__c : Option String
  Asset_Type__c : Option String
  Picklist_Values__c : Option String
  Section__c : Option String
  Section_Order__c : Option String
  Field_Order__c : Option String
  Section_Criteria__c : Option String
  Field_Criteria__c : Option String
deriving DecidableEq

/-- A field object as revision 1 builds and mutates it (lines 69-88;
`isVisible` is stamped by lines 96 and 164-184). -/
structure Field where
  fieldApiName : Option String
  fieldOrder : JsNumber
  fieldCriteria : String
  value : Option JsVal
  isText : Bool
  isTextArea : Bool
  isNumber : Bool
  isDate : Bool
  isDateTime : Bool
  isCheckbox : Bool
  isPicklist : Bool
  comboboxOptions : List (String × String)
  isVisible : Bool
deriving DecidableEq

/-- A section object as revision 1 builds and mutates it (lines 57-64;
`isVisible`/`renderKey` stamped by lines 95 and 188-193). -/
structure Section where
  name : String
  sectionOrder : JsNumber
  sectionCriteria : String
  fields : List Field
  isVisible : Bool
  renderKey : Option String
deriving DecidableEq

/-!  ## CRITERIA_REGEX (lines 29-30)

`/^\s*\[([^\]]+)\]\.\[([^\]]+)\]\s*\{\s*([!<>=]*)(.*?)\s*\}\s*$/`

The regex is deterministic: each `\s*` is followed by a character no
whitespace can start, `[^\]]+` is bounded by the first `]`, the greedy
operator class `[!<>=]*` never needs to backtrack (the lazy `(.*?)` can
absorb any character the class could give back without changing whether
the tail matches), and the lazy `(.*?)\s*\}\s*$` resolves to: the `}`
consumed is the last `}` of the string, only whitespace may follow it,
the `\s*` before it takes the maximal whitespace run, and the remaining
prefix (the `expected` capture) must contain no line terminator
(`.` does not match them). -/

/-- Match a character of the operator class `[!<>=]`. -/
def opChar (c : Char) : Bool :=
  c = '!' || c = '<' || c = '>' || c = '='

/-- `[` then a nonempty run of non-`]` characters then `]`. -/
def matchBracketed (cs : List Char) : Option (List Char × List Char) :=
  match cs with
  | '[' :: cs1 =>
    let cap := cs1.takeWhile (fun c => !(c = ']'))
    if cap.isEmpty then none
    else
      match cs1.drop cap.length with
      | ']' :: rest => some (cap, rest)
      | _ => none
  | _ => none

/-- The tail `(.*?)\s*\}\s*$` of the regex: returns the `expected`
capture when the tail matches. -/
def matchTail (rest : List Char) : Option (List Char) :=
  match (rest.reverse).dropWhile jsSpace with
  | c :: r2 =>
    if c = rbrace then
      let cap := (r2.dropWhile jsSpace).reverse
      if cap.any jsLineTerm then none else some cap
    else none
  | [] => none

/-- The part of the regex after the two bracketed captures:
`\s*\{\s*([!<>=]*)(.*?)\s*\}\s*$`, returning the operator and expected
captures. -/
def matchBraced (r3 : List Char) : Option (String × String) :=
  match r3.dropWhile jsSpace with
  | c :: r =>
    if c = lbrace then
      let r5 := r.dropWhile jsSpace
      let op := r5.takeWhile opChar
      match matchTail (r5.drop op.length) with
      | some cap => some (String.mk op, String.mk cap)
      | none => none
    else none
  | _ => none

/-- `criteria.match(CRITERIA_REGEX)`: on success the four captures
(section name, field name, operator, expected). -/
def criteriaMatch (s : String) : Option (String × String × String × String) :=
  match matchBracketed (s.data.dropWhile jsSpace) with
  | none => none
  | some (sec, r1) =>
    match r1 with
    | '.' :: r2 =>
      match matchBracketed r2 with
      | none => none
      | some (fld, r3) =>
        match matchBraced r3 with
        | none => none
        | some (op, expected) => some (String.mk sec, String.mk fld, op, expected)
    | _ => none

/-!  ## Criteria normalization and evaluation (lines 203-265) -/

/-- `normalizeCriteria(raw)`: null/undefined becomes the empty string,
anything else is trimmed. -/
def normalizeCriteria (raw : Option String) : String :=
  match raw with
  | none => ""
  | some s => jsTrim s

/-- The numeric operator list `['>', '<', '>=', '<=']` (line 243). -/
def numericOps : List String := [">", "<", ">=", "<="]

/-- Lines 225-227: resolve the target section by name, the target field
by `fieldApiName` inside it, and read its current value; any failure
yields `none` (JS `undefined`). -/
def resolveActual (sections : List Section) (sectionName fieldName : String) :
    Option JsVal :=
  ((sections.find? (fun s => s.name == sectionName)).bind (fun s =>
    s.fields.find? (fun f => f.fieldApiName == some fieldName))).bind
    (fun f => f.value)

/-- `evaluateCriteria(criteria)` (lines 212-265): regex non-match and a
null actual value give `false`; a numeric operator coerces both sides
and gives `false` on NaN; every other operator compares the lowercased
string forms for equality. -/
def evaluateCriteria (sections : List Section) (criteria : String) : Bool :=
  match criteriaMatch criteria with
  | none => false
  | some (sectionName, fieldName, operator, expected) =>
    match resolveActual sections sectionName fieldName with
    | none => false
    | some actual =>
      if numericOps.contains operator then
        let a := jsValToNumber actual
        let e := jsParseNumber expected
        if a.isNan || e.isNan then false
        else if operator == ">" then jsNLt e a
        else if operator == ">=" then jsNLe e a
        else if operator == "<" then jsNLt a e
        else jsNLe a e
      else jsToLower (jsValToString actual) == jsToLower expected

/-!  ## Visibility engine (lines 147-201)

`reEvaluateVisibility` maps over `this.sections`; the `this.sections`
read by `evaluateCriteria` during the map is still the array the pass
started from (the assignment completes only after the map), so the
engine's input list is threaded through explicitly. -/

/-- One field of the pass (lines 164-184). -/
def visField (sections : List Section) (sectionVisible : Bool) (f : Field) :
    Field :=
  let normalizedFieldCriteria := normalizeCriteria (some f.fieldCriteria)
  let fieldVisible :=
    sectionVisible &&
      (normalizedFieldCriteria == "" ||
        evaluateCriteria sections normalizedFieldCriteria)
  { f with isVisible := fieldVisible }

/-- One section of the pass (lines 150-193). -/
def visSection (sections : List Section) (sec : Section) : Section :=
  let normalizedSectionCriteria := normalizeCriteria (some sec.sectionCriteria)
  let sectionVisible :=
    if normalizedSectionCriteria == "" then true
    else evaluateCriteria sections normalizedSectionCriteria
  { sec with
      isVisible := sectionVisible
      renderKey := some (sec.name ++ "-" ++ (if sectionVisible then "true" else "false"))
      fields := sec.fields.map (visField sections sectionVisible) }

/-- `reEvaluateVisibility()` (lines 147-201). -/
def reEvaluateVisibility (sections : List Section) : List Section :=
  sections.map (visSection sections)

/-!  ## Concrete fixtures used by counterexamples and witnesses -/

/-- A plain text field fixture. -/
def mkPlainField (nm : String) (v : Option JsVal) (crit : String) : Field :=
  { fieldApiName := some nm, fieldOrder := .num (Frac.ofNat 1),
    fieldCriteria := crit, value := v, isText := true, isTextArea := false,
    isNumber := false, isDate := false, isDateTime := false,
    isCheckbox := false, isPicklist := false, comboboxOptions := [],
    isVisible := true }

/-- A section fixture. -/
def mkPlainSection (nm : String) (crit : String) (fs : List Field) : Section :=
  { name := nm, sectionOrder := .num (Frac.ofNat 1), sectionCriteria := crit,
    fields := fs, isVisible := true, renderKey := none }

/-!  ## C1: shape of every visibility pass -/

/-- C1: after every visibility pass, a section is visible iff its
(normalized) criteria string is empty or its criteria evaluates true,
and a field is visible iff its section is visible and its own
(normalized) criteria string is empty or evaluates true — so a field
under a hidden section is hidden even if its own rule passes, and a
rule-less field under a visible section is visible. -/
theorem c1_visibility_pass (ss : List Section) (i : Nat) (sec : Section)
    (hsec : ss[i]? = some sec) :
    ∃ sec', (reEvaluateVisibility ss)[i]? = some sec'
      ∧ (sec'.isVisible = true ↔
          (normalizeCriteria (some sec.sectionCriteria) = "" ∨
           evaluateCriteria ss (normalizeCriteria (some sec.sectionCriteria)) = true))
      ∧ ∀ (j : Nat) (fld : Field), sec.fields[j]? = some fld →
          ∃ fld' : Field, sec'.fields[j]? = some fld'
            ∧ (fld'.isVisible = true ↔
                (sec'.isVisible = true ∧
                 (normalizeCriteria (some fld.fieldCriteria) = "" ∨
                  evaluateCriteria ss (normalizeCriteria (some fld.fieldCriteria)) = true))) := by
  refine ⟨visSection ss sec, ?_, ?_, ?_⟩
  · simp [reEvaluateVisibility, List.getElem?_map, hsec]
  · show (if normalizeCriteria (some sec.sectionCriteria) == "" then true
        else evaluateCriteria ss (normalizeCriteria (some sec.sectionCriteria))) = true ↔ _
    by_cases h : normalizeCriteria (some sec.sectionCriteria) = ""
    · simp [h]
    · simp [h, beq_eq_false_iff_ne.mpr h]
  · intro j fld hfld
    refine ⟨visField ss (visSection ss sec).isVisible fld, ?_, ?_⟩
    · show ((sec.fields.map (visField ss (visSection ss sec).isVisible))[j]?) = _
      simp [List.getElem?_map, hfld]
    · show ((visSection ss sec).isVisible &&
          (normalizeCriteria (some fld.fieldCriteria) == "" ||
            evaluateCriteria ss (normalizeCriteria (some fld.fieldCriteria)))) = true ↔ _
      rw [Bool.and_eq_true, Bool.or_eq_true]
      simp [beq_iff_eq]

/-- Witness for C1 at a concrete one-section one-field schema. -/
theorem c1_visibility_pass_witness :
    ∃ sec', (reEvaluateVisibility [mkPlainSection "S" "" [mkPlainField "F" none ""]])[0]?
        = some sec'
      ∧ (sec'.isVisible = true ↔
          (normalizeCriteria (some (mkPlainSection "S" "" [mkPlainField "F" none ""]).sectionCriteria) = "" ∨
           evaluateCriteria [mkPlainSection "S" "" [mkPlainField "F" none ""]]
             (normalizeCriteria (some (mkPlainSection "S" "" [mkPlainField "F" none ""]).sectionCriteria)) = true))
      ∧ ∀ (j : Nat) (fld : Field), (mkPlainSection "S" "" [mkPlainField "F" none ""]).fields[j]? = some fld →
          ∃ fld' : Field, sec'.fields[j]? = some fld'
            ∧ (fld'.isVisible = true ↔
                (sec'.isVisible = true ∧
                 (normalizeCriteria (some fld.fieldCriteria) = "" ∨
                  evaluateCriteria [mkPlainSection "S" "" [mkPlainField "F" none ""]]
                    (normalizeCriteria (some fld.fieldCriteria)) = true))) :=
  c1_visibility_pass [mkPlainSection "S" "" [mkPlainField "F" none ""]] 0
    (mkPlainSection "S" "" [mkPlainField "F" none ""]) (by decide)

/-!  ## C2: malformed criteria -/

/-- A section whose criteria string matches nothing in the grammar. -/
def badCritSection : Section :=
  mkPlainSection "S" "garbage" [mkPlainField "F" (some (.str "x")) ""]

/-- The same section with no criteria at all — what the claim says the
malformed one should behave like. -/
def noCritSection : Section :=
  mkPlainSection "S" "" [mkPlainField "F" (some (.str "x")) ""]

/-- A rule-less section owning a field whose criteria string matches
nothing in the grammar. -/
def badFieldCritSection : Section :=
  mkPlainSection "S" "" [mkPlainField "F" (some (.str "x")) "garbage"]

/-- C2 counterexample: `"garbage"` is non-empty and fails the regex.
The claim predicts its owner remains visible, exactly as with no
criteria at all — and indeed the no-criteria twin comes out visible —
but the malformed owner comes out hidden, whether it is a section or a
field under a visible section: `evaluateCriteria` returns `false` on a
regex non-match (lines 217-221) and `reEvaluateVisibility` takes that
as the owner's visibility (lines 158-173). -/
theorem c2_counterexample :
    normalizeCriteria (some "garbage") ≠ ""
    ∧ criteriaMatch (normalizeCriteria (some "garbage")) = none
    ∧ (reEvaluateVisibility [noCritSection]).map Section.isVisible = [true]
    ∧ (reEvaluateVisibility [badCritSection]).map Section.isVisible = [false]
    ∧ ¬ (reEvaluateVisibility [badCritSection]).map Section.isVisible = [true]
    ∧ (reEvaluateVisibility [badFieldCritSection]).map
        (fun s => (s.isVisible, s.fields.map Field.isVisible))
        = [(true, [false])]
    ∧ ¬ (reEvaluateVisibility [badFieldCritSection]).map
        (fun s => s.fields.map Field.isVisible) = [[true]] := by
  decide

/-- C2 amended: a non-empty criteria string that does not match the
grammar never throws, but evaluates to `false`, so after the visibility
pass its owner (section or field) is hidden — fail-closed, not the
"no criteria" fail-open default. -/
theorem c2_amended :
    (∀ (ss : List Section) (i : Nat) (sec : Section), ss[i]? = some sec →
        normalizeCriteria (some sec.sectionCriteria) ≠ "" →
        criteriaMatch (normalizeCriteria (some sec.sectionCriteria)) = none →
        ∃ sec' : Section, (reEvaluateVisibility ss)[i]? = some sec'
          ∧ sec'.isVisible = false)
  ∧ (∀ (ss : List Section) (i j : Nat) (sec : Section) (fld : Field),
        ss[i]? = some sec → sec.fields[j]? = some fld →
        normalizeCriteria (some fld.fieldCriteria) ≠ "" →
        criteriaMatch (normalizeCriteria (some fld.fieldCriteria)) = none →
        ∃ (sec' : Section) (fld' : Field),
          (reEvaluateVisibility ss)[i]? = some sec'
          ∧ sec'.fields[j]? = some fld' ∧ fld'.isVisible = false) := by
  constructor
  · intro ss i sec hsec hne hnm
    refine ⟨visSection ss sec, by simp [reEvaluateVisibility, List.getElem?_map, hsec], ?_⟩
    show (if normalizeCriteria (some sec.sectionCriteria) == "" then true
        else evaluateCriteria ss (normalizeCriteria (some sec.sectionCriteria))) = false
    rw [if_neg (by simp [hne]), evaluateCriteria, hnm]
  · intro ss i j sec fld hsec hfld hne hnm
    refine ⟨visSection ss sec,
      visField ss (visSection ss sec).isVisible fld,
      by simp [reEvaluateVisibility, List.getElem?_map, hsec], ?_, ?_⟩
    · show ((sec.fields.map (visField ss (visSection ss sec).isVisible))[j]?) = _
      simp [List.getElem?_map, hfld]
    · show ((visSection ss sec).isVisible &&
          (normalizeCriteria (some fld.fieldCriteria) == "" ||
            evaluateCriteria ss (normalizeCriteria (some fld.fieldCriteria)))) = false
      rw [evaluateCriteria, hnm]
      simp [beq_eq_false_iff_ne.mpr hne]

/-- Witness for C2's amended theorem at concrete malformed inputs,
exercising both the section-owner and the field-owner case. -/
theorem c2_amended_witness :
    (∃ sec' : Section, (reEvaluateVisibility [badCritSection])[0]? = some sec'
      ∧ sec'.isVisible = false)
    ∧ (∃ (sec' : Section) (fld' : Field),
        (reEvaluateVisibility [badFieldCritSection])[0]? = some sec'
        ∧ sec'.fields[0]? = some fld' ∧ fld'.isVisible = false) :=
  ⟨c2_amended.1 [badCritSection] 0 badCritSection
     (by decide) (by decide) (by decide),
   c2_amended.2 [badFieldCritSection] 0 0 badFieldCritSection
     (mkPlainField "F" (some (.str "x")) "garbage")
     (by decide) (by decide) (by decide) (by decide)⟩

/-!  ## C3: fail-closed evaluation -/

/-- Schema with `[S].[F]` holding the string value "15". -/
def numSchema15 : List Section :=
  [mkPlainSection "S" "" [mkPlainField "F" (some (.str "15")) ""]]

/-- Schema with `[S].[F]` holding the string value "abc". -/
def numSchemaAbc : List Section :=
  [mkPlainSection "S" "" [mkPlainField "F" (some (.str "abc")) ""]]

/-- C3: the evaluator returns `false` for every operator when the target
field's actual value is null/absent; under a numeric operator it returns
`false` whenever either operand coerces to NaN; `">=10"` against "15" is
true and against "abc" is false. -/
theorem c3_fail_closed :
    (∀ (ss : List Section) (c sn fn op exp : String),
        criteriaMatch c = some (sn, fn, op, exp) →
        resolveActual ss sn fn = none → evaluateCriteria ss c = false)
  ∧ (∀ (ss : List Section) (c sn fn op exp : String) (v : JsVal),
        criteriaMatch c = some (sn, fn, op, exp) →
        numericOps.contains op = true → resolveActual ss sn fn = some v →
        ((jsValToNumber v).isNan || (jsParseNumber exp).isNan) = true →
        evaluateCriteria ss c = false)
  ∧ evaluateCriteria numSchema15 "[S].[F]\x7b>=10\x7d" = true
  ∧ evaluateCriteria numSchemaAbc "[S].[F]\x7b>=10\x7d" = false := by
  refine ⟨?_, ?_, by decide, by decide⟩
  · intro ss c sn fn op exp h1 h2
    simp only [evaluateCriteria, h1, h2]
  · intro ss c sn fn op exp v h1 hop h2 hnan
    simp only [evaluateCriteria, h1, h2, hop, hnan]
    simp

/-- Witness for C3 at concrete inputs: an empty schema resolves nothing
(null actual), and "abc" under `>=` coerces to NaN. -/
theorem c3_fail_closed_witness :
    evaluateCriteria [] "[S].[F]\x7b=x\x7d" = false
    ∧ evaluateCriteria numSchemaAbc "[S].[F]\x7b>=10\x7d" = false := by
  constructor
  · exact c3_fail_closed.1 [] "[S].[F]\x7b=x\x7d" "S" "F" "=" "x" (by decide) (by decide)
  · exact c3_fail_closed.2.1 numSchemaAbc "[S].[F]\x7b>=10\x7d" "S" "F" ">=" "10"
      (.str "abc") (by decide) (by decide) (by decide) (by decide)

/-!  ## C7: non-numeric operator semantics -/

/-- Every character of the operator capture comes from the regex class
`[!<>=]`. -/
theorem matchBraced_opChar (r3 : List Char) (op exp : String)
    (h : matchBraced r3 = some (op, exp)) : ∀ ch ∈ op.data, opChar ch = true := by
  unfold matchBraced at h
  split at h
  case h_2 => exact absurd h (by simp)
  case h_1 c r heq =>
    split at h
    case isFalse => exact absurd h (by simp)
    case isTrue hc =>
      simp only [] at h
      split at h
      case h_2 => exact absurd h (by simp)
      case h_1 cap hcap =>
        simp only [Option.some.injEq, Prod.mk.injEq] at h
        obtain ⟨ho, he⟩ := h
        intro ch hch
        rw [← ho] at hch
        exact List.mem_takeWhile_imp hch

/-- Lifting `matchBraced_opChar` through the whole regex. -/
theorem criteriaMatch_opChar (c sn fn op exp : String)
    (h : criteriaMatch c = some (sn, fn, op, exp)) :
    ∀ ch ∈ op.data, opChar ch = true := by
  unfold criteriaMatch at h
  split at h
  case h_1 => exact absurd h (by simp)
  case h_2 sec r1 heq =>
    split at h
    case h_2 => exact absurd h (by simp)
    case h_1 r2 =>
      split at h
      case h_1 => exact absurd h (by simp)
      case h_2 fld r3 heq2 =>
        split at h
        case h_1 => exact absurd h (by simp)
        case h_2 op' exp' heq3 =>
          simp only [Option.some.injEq, Prod.mk.injEq] at h
          obtain ⟨h1, h2, h3, h4⟩ := h
          exact h3 ▸ matchBraced_opChar r3 op' exp' heq3

/-- Schema with `[S].[F]` holding the string value "Yes". -/
def c7Schema : List Section :=
  [mkPlainSection "S" "" [mkPlainField "F" (some (.str "Yes")) ""]]

/-- C7 counterexample: the operator capture of `"[S].[F]{!=No}"` is
`"!="` and the case-insensitive forms of "Yes" and "No" differ, so the
claim predicts `true`; the code takes the non-numeric branch
(lines 258-260), which tests equality, and returns `false`. -/
theorem c7_counterexample :
    criteriaMatch "[S].[F]\x7b!=No\x7d" = some ("S", "F", "!=", "No")
    ∧ jsToLower (jsValToString (.str "Yes")) ≠ jsToLower "No"
    ∧ evaluateCriteria c7Schema "[S].[F]\x7b!=No\x7d" = false := by
  decide

/-- C7 amended: under every operator outside the numeric list — `"="`,
`"=="`, and also `"!="` — the evaluator returns plain case-insensitive
string equality of the actual and expected values (`"!="` does not
negate), and the operator capture can never contain `"~"`: its
characters are drawn from the class `[!<>=]`, so no containment
semantics exist. -/
theorem c7_amended :
    (∀ (ss : List Section) (c sn fn op exp : String) (v : JsVal),
        criteriaMatch c = some (sn, fn, op, exp) →
        numericOps.contains op = false → resolveActual ss sn fn = some v →
        evaluateCriteria ss c = (jsToLower (jsValToString v) == jsToLower exp))
  ∧ (∀ (c sn fn op exp : String),
        criteriaMatch c = some (sn, fn, op, exp) →
        ∀ ch ∈ op.data, opChar ch = true) := by
  constructor
  · intro ss c sn fn op exp v h1 hop h2
    simp only [evaluateCriteria, h1, h2, hop]
    simp
  · exact fun c sn fn op exp h => criteriaMatch_opChar c sn fn op exp h

/-- Witness for C7's amended theorem: `"!="` against differing values
evaluates as (failed) equality, and `"=="` against equal values
evaluates as (successful) equality. -/
theorem c7_amended_witness :
    evaluateCriteria c7Schema "[S].[F]\x7b!=No\x7d"
      = (jsToLower (jsValToString (.str "Yes")) == jsToLower "No")
    ∧ evaluateCriteria c7Schema "[S].[F]\x7b==yes\x7d"
      = (jsToLower (jsValToString (.str "Yes")) == jsToLower "yes") := by
  constructor
  · exact c7_amended.1 c7Schema "[S].[F]\x7b!=No\x7d" "S" "F" "!=" "No"
      (.str "Yes") (by decide) (by decide) (by decide)
  · exact c7_amended.1 c7Schema "[S].[F]\x7b==yes\x7d" "S" "F" "==" "yes"
      (.str "Yes") (by decide) (by decide) (by decide)

/-!  ## C10: idempotence of the visibility pass

The pass only rewrites `isVisible`/`renderKey` and rebuilds the field
list with the same names, criteria and values, and `evaluateCriteria`
reads only names, criteria and values — so a second pass computes the
same flags. -/

theorem visSection_name (ss : List Section) (sec : Section) :
    (visSection ss sec).name = sec.name := rfl

theorem visSection_fields (ss : List Section) (sec : Section) :
    (visSection ss sec).fields
      = sec.fields.map (visField ss (visSection ss sec).isVisible) := rfl

/-- `find?` over a passed schema finds the passed image of the original
hit, for any name-determined predicate. -/
theorem findSec_reEval (ss : List Section) (p : Section → Bool)
    (hp : ∀ sec, p (visSection ss sec) = p sec) :
    (reEvaluateVisibility ss).find? p = (ss.find? p).map (visSection ss) := by
  unfold reEvaluateVisibility
  rw [List.find?_map]
  rw [show (p ∘ visSection ss) = p from funext hp]

/-- Target resolution is invariant under the pass: the pass preserves
section names, field names and field values. -/
theorem resolveActual_reEval (ss : List Section) (sn fn : String) :
    resolveActual (reEvaluateVisibility ss) sn fn = resolveActual ss sn fn := by
  unfold resolveActual
  rw [findSec_reEval ss (fun s => s.name == sn) (fun sec => rfl)]
  cases h : ss.find? (fun s => s.name == sn) with
  | none => rfl
  | some sec =>
    show ((visSection ss sec).fields.find?
        (fun f => f.fieldApiName == some fn)).bind (fun f => f.value)
      = (sec.fields.find? (fun f => f.fieldApiName == some fn)).bind
          (fun f => f.value)
    rw [visSection_fields, List.find?_map,
      show ((fun f : Field => f.fieldApiName == some fn) ∘
          visField ss (visSection ss sec).isVisible)
        = (fun f : Field => f.fieldApiName == some fn) from funext (fun f => rfl)]
    cases h2 : sec.fields.find? (fun f => f.fieldApiName == some fn) with
    | none => rfl
    | some f => rfl

/-- Criteria evaluation is invariant under the pass. -/
theorem evaluateCriteria_reEval (ss : List Section) (c : String) :
    evaluateCriteria (reEvaluateVisibility ss) c = evaluateCriteria ss c := by
  unfold evaluateCriteria
  cases criteriaMatch c with
  | none => rfl
  | some t =>
    obtain ⟨sn, fn, op, exp⟩ := t
    dsimp only
    rw [resolveActual_reEval]

theorem visField_reEval (ss : List Section) (v : Bool) (f : Field) :
    visField (reEvaluateVisibility ss) v (visField ss v f) = visField ss v f := by
  simp only [visField, evaluateCriteria_reEval]

theorem visSection_reEval (ss : List Section) (sec : Section) :
    visSection (reEvaluateVisibility ss) (visSection ss sec) = visSection ss sec := by
  simp only [visSection, evaluateCriteria_reEval, List.map_map]
  congr 1
  exact List.map_congr_left (fun f _ => visField_reEval ss _ f)

/-- C10: the visibility pass is idempotent — running it twice with no
intervening value change reproduces the very same schema state (in
particular identical `isVisible` flags on every section and field). -/
theorem c10_idempotent (ss : List Section) :
    reEvaluateVisibility (reEvaluateVisibility ss) = reEvaluateVisibility ss := by
  conv_lhs => rw [reEvaluateVisibility]
  rw [show reEvaluateVisibility ss = ss.map (visSection ss) from rfl, List.map_map]
  exact List.map_congr_left (fun sec _ => visSection_reEval ss sec)

/-!  ## Revision-1 schema builder (lines 44-115)

`Array.prototype.sort` with a consistent comparator is stable;
`List.insertionSort` is the stable sort used to model it. -/

/-- `node.Section__c?.value || 'Other'` (lines 55 and 340). -/
def secNameOf (node : RawNode) : String := jsOrDefault node.Section__c "Other"

/-- `Number(value ?? 9999)` (lines 60 and 71). -/
def v1OrderOf (o : Option String) : JsNumber :=
  match o with
  | none => .num (Frac.ofNat 9999)
  | some s => jsParseNumber s

/-- One field object of revision 1 (lines 66-88).  The JS object is
pushed without an `isVisible` property; the builder's post-pass
(line 96) stamps it `true`, so creation uses `false` as the placeholder
for the absent property. -/
def mkFieldV1 (node : RawNode) : Field :=
  let type := jsToLower (jsOrEmpty node.Asset_Type__c)
  let isPicklist := type == "picklist"
  { fieldApiName := node.Asset_Attribute__c
    fieldOrder := v1OrderOf node.Field_Order__c
    fieldCriteria := jsOrEmpty node.Field_Criteria__c
    value := none
    isText := type == "text" || type == "string"
    isTextArea := type == "textarea" || type == "longtext"
    isNumber := type == "number" || type == "double" || type == "currency" || type == "percent"
    isDate := type == "date"
    isDateTime := type == "datetime"
    isCheckbox := type == "checkbox" || type == "boolean"
    isPicklist := isPicklist
    comboboxOptions :=
      if isPicklist then
        ((jsOrEmpty node.Picklist_Values__c).splitOn ",").map
          (fun v => (jsTrim v, jsTrim v))
      else []
    isVisible := false }

/-- One iteration of the grouping loop (lines 54-89): create the section
on first sight of its name (keeping that first record's order and
criteria), then push the field. -/
def v1Insert (grouped : List Section) (node : RawNode) : List Section :=
  let sectionName := secNameOf node
  let grouped1 :=
    if (grouped.find? (fun g => g.name == sectionName)).isSome then grouped
    else grouped ++ [{ name := sectionName
                       sectionOrder := v1OrderOf node.Section_Order__c
                       sectionCriteria := jsOrEmpty node.Section_Criteria__c
                       fields := []
                       isVisible := false
                       renderKey := none }]
  grouped1.map (fun g =>
    if g.name == sectionName then { g with fields := g.fields ++ [mkFieldV1 node] }
    else g)

/-- ECMAScript `SortCompare` on the comparator result `a - b`
(lines 94 and 99): nonpositive keeps `a` before `b`; a NaN comparator
result is coerced to `+0`. -/
def jsCmpLe (r : JsNumber) : Bool :=
  match r with
  | .nan => true
  | .posInf => false
  | .negInf => true
  | .num q => decide (q.num ≤ 0)

/-- The field comparator `(a, b) => a.fieldOrder - b.fieldOrder`. -/
def v1FieldRel (a b : Field) : Prop :=
  jsCmpLe (jsSub a.fieldOrder b.fieldOrder) = true

/-- The section comparator `(a, b) => a.sectionOrder - b.sectionOrder`. -/
def v1SectionRel (a b : Section) : Prop :=
  jsCmpLe (jsSub a.sectionOrder b.sectionOrder) = true

instance : DecidableRel v1FieldRel := fun a b => by
  unfold v1FieldRel; infer_instance

instance : DecidableRel v1SectionRel := fun a b => by
  unfold v1SectionRel; infer_instance

/-- The revision-1 builder (lines 51-101): group, sort each section's
fields, stamp `isVisible = true` everywhere, sort sections. -/
def buildSections_v1 (edges : List RawNode) : List Section :=
  let grouped := edges.foldl v1Insert []
  let list := grouped.map (fun sec =>
    { sec with
        isVisible := true
        fields := (List.insertionSort v1FieldRel sec.fields).map
          (fun f => { f with isVisible := true }) })
  List.insertionSort v1SectionRel list

/-!  ## Revision-2 schema builder (lines 319-446) -/

/-- A NaN-free JavaScript number: what the revision-2 builder stores as
an order key after its `isNaN(o) ? Infinity : o` cleanup (lines 399 and
423) — the cleanup is total, so the stored keys never hold NaN, and the
sort comparators only ever see these. -/
inductive CleanNum where
  | posInf
  | negInf
  | fin (q : Frac)
deriving DecidableEq

/-- `isNaN(o) ? Infinity : o` (lines 399 and 423). -/
def cleanOrder (x : JsNumber) : CleanNum :=
  match x with
  | .nan => .posInf
  | .posInf => .posInf
  | .negInf => .negInf
  | .num q => .fin q

/-- `Number(value ?? Infinity)` (lines 341 and 353). -/
def v2OrderOf (o : Option String) : JsNumber :=
  match o with
  | none => .posInf
  | some s => jsParseNumber s

/-- `<` on cleaned order keys. -/
def cleanLt : CleanNum → CleanNum → Bool
  | .negInf, .negInf => false
  | .negInf, _ => true
  | _, .negInf => false
  | .posInf, _ => false
  | .fin _, .posInf => true
  | .fin a, .fin b => fracLt a b

/-- JavaScript `===` (value equality) on cleaned order keys — the
comparators' `ao !== bo` test (lines 410 and 429). -/
def cleanEqv : CleanNum → CleanNum → Bool
  | .posInf, .posInf => true
  | .negInf, .negInf => true
  | .fin a, .fin b => fracEqv a b
  | _, _ => false

/-- A field object of revision 2 (lines 383-400).  The JS property
`section` is `sectionName` here (`section` is a Lean keyword). -/
structure Field2 where
  sectionName : String
  fieldApiName : Option String
  fieldType : String
  comboboxOptions : List (String × String)
  isText : Bool
  isTextArea : Bool
  isNumber : Bool
  isDate : Bool
  isDateTime : Bool
  isCheckbox : Bool
  isPicklist : Bool
  isOther : Bool
  value : Option JsVal
  fieldOrder : CleanNum
deriving DecidableEq

/-- One value of the revision-2 grouping map (line 343). -/
structure EntryV2 where
  order : JsNumber
  fields : List Field2
deriving DecidableEq

/-- A section of the revision-2 schema (lines 420-424). -/
structure Section2 where
  name : String
  fields : List Field2
  sectionOrder : CleanNum
deriving DecidableEq

/-- Field construction of revision 2 (lines 351-400): lower-cased type,
the seven kind flags plus `isOther` as the conjunction of their
negations, picklist options split on commas with empties dropped, and
the field order NaN-cleaned to Infinity. -/
def mkFieldV2 (node : RawNode) (sectionName : String) : Field2 :=
  let typeRaw := jsToLower (jsOrEmpty node.Asset_Type__c)
  let isText := typeRaw == "text" || typeRaw == "string"
  let isTextArea := typeRaw == "textarea" || typeRaw == "longtext"
  let isNumber := typeRaw == "number" || typeRaw == "double" ||
    typeRaw == "currency" || typeRaw == "percent"
  let isDate := typeRaw == "date"
  let isDateTime := typeRaw == "datetime"
  let isCheckbox := typeRaw == "checkbox" || typeRaw == "boolean"
  let isPicklist := typeRaw == "picklist"
  let isOther := !isText && !isTextArea && !isNumber && !isDate &&
    !isDateTime && !isCheckbox && !isPicklist
  { sectionName := sectionName
    fieldApiName := node.Asset_Attribute__c
    fieldType := typeRaw
    comboboxOptions :=
      if isPicklist then
        (((jsOrEmpty node.Picklist_Values__c).splitOn ",").map jsTrim
          |>.filter (fun s => decide (s.length ≠ 0))).map (fun v => (v, v))
      else []
    isText := isText
    isTextArea := isTextArea
    isNumber := isNumber
    isDate := isDate
    isDateTime := isDateTime
    isCheckbox := isCheckbox
    isPicklist := isPicklist
    isOther := isOther
    value := none
    fieldOrder := cleanOrder (v2OrderOf node.Field_Order__c) }

/-- One iteration of the revision-2 grouping loop (lines 336-403):
skip null nodes; create the entry on first sight or keep the minimum
order (`Math.min`); push the field. -/
def v2Step (grouped : List (String × EntryV2)) (onode : Option RawNode) :
    List (String × EntryV2) :=
  match onode with
  | none => grouped
  | some node =>
    let sectionName := secNameOf node
    let sectionOrder := v2OrderOf node.Section_Order__c
    let grouped1 :=
      if (grouped.find? (fun p => p.1 == sectionName)).isSome then
        grouped.map (fun p =>
          if p.1 == sectionName then
            (p.1, { p.2 with order := jsMin p.2.order sectionOrder })
          else p)
      else grouped ++ [(sectionName, { order := sectionOrder, fields := [] })]
    grouped1.map (fun p =>
      if p.1 == sectionName then
        (p.1, { p.2 with fields := p.2.fields ++ [mkFieldV2 node sectionName] })
      else p)

/-- `(a.fieldApiName || '').toString().toLowerCase()` (lines 411-412). -/
def lowerFieldName (f : Field2) : String := jsToLower (jsOrEmpty f.fieldApiName)

/-- `(a.name || '').toString().toLowerCase()` (lines 430-431). -/
def lowerSecName (s : Section2) : String := jsToLower s.name

/-- The field comparator of lines 407-416 as a "keeps `a` before `b`"
relation: the comparator returns `ao - bo` when the orders differ
(nonpositive iff `ao < bo`, both being non-NaN), else compares the
lower-cased names. -/
def fld2Rel (a b : Field2) : Prop :=
  cleanLt a.fieldOrder b.fieldOrder = true ∨
  (cleanEqv a.fieldOrder b.fieldOrder = true ∧ lowerFieldName a ≤ lowerFieldName b)

/-- The section comparator of lines 426-435, same shape. -/
def sec2Rel (a b : Section2) : Prop :=
  cleanLt a.sectionOrder b.sectionOrder = true ∨
  (cleanEqv a.sectionOrder b.sectionOrder = true ∧ lowerSecName a ≤ lowerSecName b)

instance : DecidableRel fld2Rel := fun a b => by
  unfold fld2Rel; infer_instance

instance : DecidableRel sec2Rel := fun a b => by
  unfold sec2Rel; infer_instance

/-- The revision-2 builder (lines 333-437): group, sort fields within
each entry, build the section list with NaN-cleaned orders, sort it. -/
def buildSectionList_v2 (edges : List (Option RawNode)) : List Section2 :=
  let grouped := edges.foldl v2Step []
  let sorted := grouped.map (fun p =>
    (p.1, { p.2 with fields := List.insertionSort fld2Rel p.2.fields }))
  let sectionList := sorted.map (fun p =>
    { name := p.1, fields := p.2.fields, sectionOrder := cleanOrder p.2.order })
  List.insertionSort sec2Rel sectionList

/-- The component state revision 2's `wiredForm` touches. -/
structure ComponentState2 where
  sections : List Section2
  schemaError : Option String
  loading : Bool
deriving DecidableEq

/-- `wiredForm({ data, errors })` of revision 2 (lines 319-446): no
data and no errors returns unchanged; surfaced errors join their
messages with `'; '` into `schemaError` and clear the schema; otherwise
the schema is rebuilt from the edges and the error cleared. -/
def wiredForm_v2 (prev : ComponentState2) (data : Option (List (Option RawNode)))
    (errors : Option (List String)) : ComponentState2 :=
  if data.isNone ∧ errors.isNone then prev
  else
    match errors with
    | some es =>
      if es.length > 0 then
        { sections := [], schemaError := some (String.intercalate "; " es),
          loading := false }
      else
        { sections := buildSectionList_v2 (data.getD []), schemaError := none,
          loading := false }
    | none =>
      { sections := buildSectionList_v2 (data.getD []), schemaError := none,
        loading := false }

/-!  ## Order facts for the comparators -/

theorem Frac.denZ_pos (x : Frac) : 0 < x.denZ := by
  unfold Frac.denZ; omega

theorem fracLt_trans {a b c : Frac} (h1 : fracLt a b = true)
    (h2 : fracLt b c = true) : fracLt a c = true := by
  unfold fracLt at *
  rw [decide_eq_true_iff] at *
  have ha := Frac.denZ_pos a
  have hb := Frac.denZ_pos b
  have hc := Frac.denZ_pos c
  have H1 := mul_lt_mul_of_pos_right h1 hc
  have H2 := mul_lt_mul_of_pos_right h2 ha
  have H3 : a.num * c.denZ * b.denZ < c.num * a.denZ * b.denZ := by nlinarith
  exact lt_of_mul_lt_mul_right H3 (le_of_lt hb)

theorem fracLe_trans {a b c : Frac} (h1 : fracLe a b = true)
    (h2 : fracLe b c = true) : fracLe a c = true := by
  unfold fracLe at *
  rw [decide_eq_true_iff] at *
  have ha := Frac.denZ_pos a
  have hb := Frac.denZ_pos b
  have hc := Frac.denZ_pos c
  have H1 := mul_le_mul_of_nonneg_right h1 (le_of_lt hc)
  have H2 := mul_le_mul_of_nonneg_right h2 (le_of_lt ha)
  have H3 : a.num * c.denZ * b.denZ ≤ c.num * a.denZ * b.denZ := by nlinarith
  exact le_of_mul_le_mul_right H3 hb

theorem fracEqv_trans {a b c : Frac} (h1 : fracEqv a b = true)
    (h2 : fracEqv b c = true) : fracEqv a c = true := by
  unfold fracEqv at *
  rw [decide_eq_true_iff] at *
  have hb := Frac.denZ_pos b
  have E : (a.num * c.denZ) * b.denZ = (c.num * a.denZ) * b.denZ := by
    linear_combination c.denZ * h1 + a.denZ * h2
  exact mul_right_cancel₀ (ne_of_gt hb) E

theorem fracLt_of_lt_of_eqv {a b c : Frac} (h1 : fracLt a b = true)
    (h2 : fracEqv b c = true) : fracLt a c = true := by
  unfold fracLt fracEqv at *
  rw [decide_eq_true_iff] at *
  have ha := Frac.denZ_pos a
  have hb := Frac.denZ_pos b
  have hc := Frac.denZ_pos c
  have H1 := mul_lt_mul_of_pos_right h1 hc
  have H3 : a.num * c.denZ * b.denZ < c.num * a.denZ * b.denZ := by nlinarith
  exact lt_of_mul_lt_mul_right H3 (le_of_lt hb)

theorem fracLt_of_eqv_of_lt {a b c : Frac} (h1 : fracEqv a b = true)
    (h2 : fracLt b c = true) : fracLt a c = true := by
  unfold fracLt fracEqv at *
  rw [decide_eq_true_iff] at *
  have ha := Frac.denZ_pos a
  have hb := Frac.denZ_pos b
  have hc := Frac.denZ_pos c
  have H2 := mul_lt_mul_of_pos_right h2 ha
  have H3 : a.num * c.denZ * b.denZ < c.num * a.denZ * b.denZ := by nlinarith
  exact lt_of_mul_lt_mul_right H3 (le_of_lt hb)

theorem fracEqv_of_not_lt {a b : Frac} (h1 : fracLt a b = false)
    (h2 : fracLt b a = false) : fracEqv a b = true := by
  unfold fracLt fracEqv at *
  rw [decide_eq_false_iff_not] at h1 h2
  rw [decide_eq_true_iff]
  omega

theorem fracLe_total (a b : Frac) : fracLe a b = true ∨ fracLe b a = true := by
  unfold fracLe
  rw [decide_eq_true_iff, decide_eq_true_iff]
  omega

theorem fracLe_refl (a : Frac) : fracLe a a = true := by
  unfold fracLe
  rw [decide_eq_true_iff]

theorem cleanLt_trans {a b c : CleanNum} (h1 : cleanLt a b = true)
    (h2 : cleanLt b c = true) : cleanLt a c = true := by
  cases a <;> cases b <;> cases c <;> simp_all [cleanLt] <;>
    exact fracLt_trans h1 h2

theorem cleanEqv_trans {a b c : CleanNum} (h1 : cleanEqv a b = true)
    (h2 : cleanEqv b c = true) : cleanEqv a c = true := by
  cases a <;> cases b <;> cases c <;> simp_all [cleanEqv] <;>
    exact fracEqv_trans h1 h2

theorem cleanLt_of_lt_of_eqv {a b c : CleanNum} (h1 : cleanLt a b = true)
    (h2 : cleanEqv b c = true) : cleanLt a c = true := by
  cases a <;> cases b <;> cases c <;> simp_all [cleanLt, cleanEqv] <;>
    exact fracLt_of_lt_of_eqv h1 h2

theorem cleanLt_of_eqv_of_lt {a b c : CleanNum} (h1 : cleanEqv a b = true)
    (h2 : cleanLt b c = true) : cleanLt a c = true := by
  cases a <;> cases b <;> cases c <;> simp_all [cleanLt, cleanEqv] <;>
    exact fracLt_of_eqv_of_lt h1 h2

theorem cleanEqv_of_not_lt {a b : CleanNum} (h1 : cleanLt a b = false)
    (h2 : cleanLt b a = false) : cleanEqv a b = true := by
  cases a <;> cases b <;> simp_all [cleanLt, cleanEqv] <;>
    exact fracEqv_of_not_lt h1 h2

/-- A generic "order key then case-insensitive name" comparator relation
is transitive. -/
theorem keyRel_trans {α : Type} (ord : α → CleanNum) (nm : α → String)
    (a b c : α)
    (h1 : cleanLt (ord a) (ord b) = true ∨
      (cleanEqv (ord a) (ord b) = true ∧ nm a ≤ nm b))
    (h2 : cleanLt (ord b) (ord c) = true ∨
      (cleanEqv (ord b) (ord c) = true ∧ nm b ≤ nm c)) :
    cleanLt (ord a) (ord c) = true ∨
      (cleanEqv (ord a) (ord c) = true ∧ nm a ≤ nm c) := by
  rcases h1 with h1 | ⟨h1, hn1⟩ <;> rcases h2 with h2 | ⟨h2, hn2⟩
  · exact Or.inl (cleanLt_trans h1 h2)
  · exact Or.inl (cleanLt_of_lt_of_eqv h1 h2)
  · exact Or.inl (cleanLt_of_eqv_of_lt h1 h2)
  · exact Or.inr ⟨cleanEqv_trans h1 h2, le_trans hn1 hn2⟩

/-- A generic "order key then case-insensitive name" comparator relation
is total. -/
theorem keyRel_total {α : Type} (ord : α → CleanNum) (nm : α → String)
    (a b : α) :
    (cleanLt (ord a) (ord b) = true ∨
      (cleanEqv (ord a) (ord b) = true ∧ nm a ≤ nm b)) ∨
    (cleanLt (ord b) (ord a) = true ∨
      (cleanEqv (ord b) (ord a) = true ∧ nm b ≤ nm a)) := by
  cases h1 : cleanLt (ord a) (ord b) with
  | true => exact Or.inl (Or.inl rfl)
  | false =>
    cases h2 : cleanLt (ord b) (ord a) with
    | true => exact Or.inr (Or.inl rfl)
    | false =>
      rcases le_total (nm a) (nm b) with hn | hn
      · exact Or.inl (Or.inr ⟨cleanEqv_of_not_lt h1 h2, hn⟩)
      · exact Or.inr (Or.inr ⟨cleanEqv_of_not_lt h2 h1, hn⟩)

instance : IsTrans Field2 fld2Rel :=
  ⟨fun a b c => keyRel_trans Field2.fieldOrder lowerFieldName a b c⟩

instance : IsTotal Field2 fld2Rel :=
  ⟨fun a b => keyRel_total Field2.fieldOrder lowerFieldName a b⟩

instance : IsTrans Section2 sec2Rel :=
  ⟨fun a b c => keyRel_trans Section2.sectionOrder lowerSecName a b c⟩

instance : IsTotal Section2 sec2Rel :=
  ⟨fun a b => keyRel_total Section2.sectionOrder lowerSecName a b⟩

/-!  ## C4: the built schema is totally ordered -/

/-- C4: the revision-2 builder emits sections, and fields within every
section, sorted by the comparator relation "explicit order ascending,
ties broken by case-insensitive name ascending"; a missing order key is
`Infinity`, and an unparseable one (NaN) is cleaned to `Infinity`, so
both sort after every explicit order. -/
theorem c4_ordering :
    (∀ edges : List (Option RawNode),
        List.Pairwise sec2Rel (buildSectionList_v2 edges))
  ∧ (∀ (edges : List (Option RawNode)) (sec : Section2),
        sec ∈ buildSectionList_v2 edges → List.Pairwise fld2Rel sec.fields)
  ∧ cleanOrder (v2OrderOf none) = .posInf
  ∧ (∀ s : String, jsParseNumber s = .nan →
        cleanOrder (v2OrderOf (some s)) = .posInf) := by
  refine ⟨?_, ?_, rfl, ?_⟩
  · intro edges
    exact List.sorted_insertionSort sec2Rel _
  · intro edges sec hmem
    simp only [buildSectionList_v2] at hmem
    have hmem' := (List.perm_insertionSort sec2Rel _).mem_iff.mp hmem
    simp only [List.mem_map] at hmem'
    obtain ⟨p, hp, rfl⟩ := hmem'
    obtain ⟨q, hq, rfl⟩ := hp
    exact List.sorted_insertionSort fld2Rel _
  · intro s hs
    simp [v2OrderOf, hs, cleanOrder]

/-- Section-A/section-B fixture used by the C4 witness. -/
def c4NodeA : RawNode :=
  { Asset_Attribute__c := some "X", Asset_Type__c := some "text",
    Picklist_Values__c := none, Section__c := some "A",
    Section_Order__c := some "2", Field_Order__c := some "1",
    Section_Criteria__c := none, Field_Criteria__c := none }

/-- Second fixture: section "B" with the smaller order. -/
def c4NodeB : RawNode :=
  { c4NodeA with
      Section__c := some "B"
      Section_Order__c := some "1"
      Asset_Attribute__c := some "Y" }

/-- Witness for C4 at concrete edges. -/
theorem c4_ordering_witness :
    List.Pairwise sec2Rel (buildSectionList_v2 [some c4NodeA, some c4NodeB])
    ∧ List.Pairwise fld2Rel
        (Section2.mk "A" [mkFieldV2 c4NodeA "A"] (.fin ⟨2, 0⟩)).fields
    ∧ cleanOrder (v2OrderOf (some "abc")) = .posInf :=
  ⟨c4_ordering.1 [some c4NodeA, some c4NodeB],
   c4_ordering.2.1 [some c4NodeA]
     (Section2.mk "A" [mkFieldV2 c4NodeA "A"] (.fin ⟨2, 0⟩)) (by decide),
   c4_ordering.2.2.2 "abc" (by decide)⟩

/-!  ## C8: the type classifier is total and exclusive -/

/-- The eight kind flags of a built field, in declaration order. -/
def kindFlags (f : Field2) : List Bool :=
  [f.isText, f.isTextArea, f.isNumber, f.isDate, f.isDateTime,
   f.isCheckbox, f.isPicklist, f.isOther]

/-- Every type string the classifier recognizes (lines 355-361). -/
def kindStrings : List String :=
  ["text", "string", "textarea", "longtext", "number", "double",
   "currency", "percent", "date", "datetime", "checkbox", "boolean",
   "picklist"]

/-- C8: for every raw node, exactly one kind flag of the built field is
true, and a lower-cased type matching none of the recognized strings
yields `isOther` — never a failure, never all-false flags. -/
theorem c8_classifier (node : RawNode) (sn : String) :
    (kindFlags (mkFieldV2 node sn)).count true = 1
    ∧ (jsToLower (jsOrEmpty node.Asset_Type__c) ∉ kindStrings →
        (mkFieldV2 node sn).isOther = true) := by
  simp only [kindFlags, mkFieldV2, kindStrings, List.mem_cons,
    List.not_mem_nil, or_false, not_or]
  generalize jsToLower (jsOrEmpty node.Asset_Type__c) = t
  constructor
  · by_cases h1 : t = "text"
    · subst h1; decide
    by_cases h2 : t = "string"
    · subst h2; decide
    by_cases h3 : t = "textarea"
    · subst h3; decide
    by_cases h4 : t = "longtext"
    · subst h4; decide
    by_cases h5 : t = "number"
    · subst h5; decide
    by_cases h6 : t = "double"
    · subst h6; decide
    by_cases h7 : t = "currency"
    · subst h7; decide
    by_cases h8 : t = "percent"
    · subst h8; decide
    by_cases h9 : t = "date"
    · subst h9; decide
    by_cases h10 : t = "datetime"
    · subst h10; decide
    by_cases h11 : t = "checkbox"
    · subst h11; decide
    by_cases h12 : t = "boolean"
    · subst h12; decide
    by_cases h13 : t = "picklist"
    · subst h13; decide
    simp [beq_eq_false_iff_ne.mpr h1, beq_eq_false_iff_ne.mpr h2,
      beq_eq_false_iff_ne.mpr h3, beq_eq_false_iff_ne.mpr h4,
      beq_eq_false_iff_ne.mpr h5, beq_eq_false_iff_ne.mpr h6,
      beq_eq_false_iff_ne.mpr h7, beq_eq_false_iff_ne.mpr h8,
      beq_eq_false_iff_ne.mpr h9, beq_eq_false_iff_ne.mpr h10,
      beq_eq_false_iff_ne.mpr h11, beq_eq_false_iff_ne.mpr h12,
      beq_eq_false_iff_ne.mpr h13]
  · intro hmem
    obtain ⟨g1, g2, g3, g4, g5, g6, g7, g8, g9, g10, g11, g12, g13⟩ := hmem
    simp [beq_eq_false_iff_ne.mpr g1, beq_eq_false_iff_ne.mpr g2,
      beq_eq_false_iff_ne.mpr g3, beq_eq_false_iff_ne.mpr g4,
      beq_eq_false_iff_ne.mpr g5, beq_eq_false_iff_ne.mpr g6,
      beq_eq_false_iff_ne.mpr g7, beq_eq_false_iff_ne.mpr g8,
      beq_eq_false_iff_ne.mpr g9, beq_eq_false_iff_ne.mpr g10,
      beq_eq_false_iff_ne.mpr g11, beq_eq_false_iff_ne.mpr g12,
      beq_eq_false_iff_ne.mpr g13]

/-- A node with an unrecognized type tag. -/
def weirdTypeNode : RawNode := { c4NodeA with Asset_Type__c := some "WeIrD" }

/-- Witness for C8 at an unrecognized type tag. -/
theorem c8_classifier_witness :
    (kindFlags (mkFieldV2 weirdTypeNode "S")).count true = 1
    ∧ (mkFieldV2 weirdTypeNode "S").isOther = true :=
  ⟨(c8_classifier weirdTypeNode "S").1,
   (c8_classifier weirdTypeNode "S").2 (by decide)⟩

/-!  ## C9: surfaced load errors clear the schema -/

/-- C9: when the load surfaces a non-empty error list, `wiredForm`
joins the messages with `"; "` into the single schema-level error
string and clears the schema to the empty section list — no partial
schema is retained. -/
theorem c9_error_clears (prev : ComponentState2)
    (data : Option (List (Option RawNode))) (es : List String)
    (hne : es ≠ []) :
    (wiredForm_v2 prev data (some es)).sections = []
    ∧ (wiredForm_v2 prev data (some es)).schemaError
        = some (String.intercalate "; " es) := by
  have hlen : es.length > 0 := List.length_pos.mpr hne
  unfold wiredForm_v2
  rw [if_neg (by simp)]
  simp [hlen]

/-- Witness for C9: two errors against a stale nonempty state. -/
theorem c9_error_clears_witness :
    (wiredForm_v2 (ComponentState2.mk [Section2.mk "stale" [] .posInf] none true)
        none (some ["boom", "bang"])).sections = []
    ∧ (wiredForm_v2 (ComponentState2.mk [Section2.mk "stale" [] .posInf] none true)
        none (some ["boom", "bang"])).schemaError = some "boom; bang" := by
  have h := c9_error_clears
    (ComponentState2.mk [Section2.mk "stale" [] .posInf] none true)
    none ["boom", "bang"] (by decide)
  exact ⟨h.1, h.2.trans (by decide)⟩

/-!  ## C6: the positional criteria dialect

The sources under `src/` contain only the name dialect
(`CRITERIA_REGEX`); the positional dialect `<secIdx>-<fldIdx>{...}` is
code of earlier revisions of this repository that is not present here,
so it is modelled from the spec (section 4.3). -/

/-- Modelled from the spec: one positional-dialect atom
`{secIdx, fldIdx, op, expected}` with 1-based target indices. -/
structure PosAtom where
  secIdx : Nat
  fldIdx : Nat
  op : String
  expected : String
deriving DecidableEq

/-- Modelled from the spec: split a criteria string on newline or
semicolon. -/
def splitSemiNl (cs : List Char) : List (List Char) :=
  match cs with
  | [] => [[]]
  | c :: rest =>
    let r := splitSemiNl rest
    if c = ';' ∨ c = '\n' then [] :: r
    else
      match r with
      | p :: ps => (c :: p) :: ps
      | [] => [[c]]

/-- Modelled from the spec: the longest operator symbol at the head of
the piece body (empty when none matches; the caller defaults it to
`"="`). -/
def takeOpPos (cs : List Char) : String × List Char :=
  match cs with
  | a :: b :: rest =>
    if a = '=' ∧ b = '=' then ("==", rest)
    else if a = '!' ∧ b = '=' then ("!=", rest)
    else if a = '>' ∧ b = '=' then (">=", rest)
    else if a = '<' ∧ b = '=' then ("<=", rest)
    else if a = '>' then (">", b :: rest)
    else if a = '<' then ("<", b :: rest)
    else if a = '=' then ("=", b :: rest)
    else if a = '~' then ("~", b :: rest)
    else ("", a :: b :: rest)
  | [a] =>
    if a = '>' then (">", [])
    else if a = '<' then ("<", [])
    else if a = '=' then ("=", [])
    else if a = '~' then ("~", [])
    else ("", [a])
  | [] => ("", [])

/-- The single-quote character (code point 39). -/
def squote : Char := Char.ofNat 39

/-- The double-quote character (code point 34). -/
def dquote : Char := Char.ofNat 34

/-- Modelled from the spec: strip one optional layer of matching quotes
from the expected text. -/
def stripQuotes (cs : List Char) : List Char :=
  match cs with
  | c :: rest =>
    if (c = squote ∨ c = dquote) ∧ rest ≠ [] ∧ rest.getLast? = some c then
      rest.dropLast
    else cs
  | [] => []

/-- Modelled from the spec: match one trimmed piece against the grammar
`<secIdx>-<fldIdx>{<op><expected>}` — positive 1-based integers, an
optional operator symbol defaulting to `"="`, and the remaining text
with one optional layer of matching quotes stripped; a non-match is
`none` (the piece is dropped). -/
def parsePiece (cs : List Char) : Option PosAtom :=
  let ds := cs.takeWhile isDigitChar
  if ds.isEmpty ∨ digitsToNat ds = 0 then none
  else
    match cs.drop ds.length with
    | '-' :: rest =>
      let ds2 := rest.takeWhile isDigitChar
      if ds2.isEmpty ∨ digitsToNat ds2 = 0 then none
      else
        match rest.drop ds2.length with
        | c :: body =>
          if c = lbrace then
            match body.reverse with
            | last :: innerRev =>
              if last = rbrace then
                some { secIdx := digitsToNat ds
                       fldIdx := digitsToNat ds2
                       op := if (takeOpPos innerRev.reverse).1 = "" then "="
                         else (takeOpPos innerRev.reverse).1
                       expected := String.mk (stripQuotes (takeOpPos innerRev.reverse).2) }
              else none
            | [] => none
          else none
        | _ => none
    | _ => none

/-- Modelled from the spec: the positional-dialect parser — split on
newline/semicolon, trim, drop empty pieces, parse each piece, and drop
silently the pieces that do not match the grammar. -/
def parsePositional (raw : String) : List PosAtom :=
  (((splitSemiNl raw.data).map jsTrimList).filter
    (fun p => !p.isEmpty)).filterMap parsePiece

/-- C6: `parse("1-1{Yes}")` yields exactly the atom
`{secIdx 1, fldIdx 1, op "=", expected "Yes"}` (empty operator defaults
to `"="`), and `parse("2-3{>=10}")` yields
`{secIdx 2, fldIdx 3, op ">=", expected "10"}`. -/
theorem c6_positional_parse :
    parsePositional "1-1\x7bYes\x7d" = [⟨1, 1, "=", "Yes"⟩]
    ∧ parsePositional "2-3\x7b>=10\x7d" = [⟨2, 3, ">=", "10"⟩] := by
  decide

/-!  ## C5: duplicate-section merge policy

What the revision-1 grouping loop (lines 54-64) actually does on
duplicate section names: the first record for a name fixes the
section's order and criteria; later duplicates never overwrite either.
The revision-2 loop (lines 341-349, which carries no criteria) keeps
the minimum declared order via `Math.min`. -/

/-- `find` by section name. -/
def findSec (l : List Section) (name : String) : Option Section :=
  l.find? (fun g => g.name == name)

/-- The merge-relevant projection of a built section. -/
def v1Proj (g : Section) : JsNumber × String := (g.sectionOrder, g.sectionCriteria)

/-- The section order and criteria a raw record declares. -/
def v1NodeProj (node : RawNode) : JsNumber × String :=
  (v1OrderOf node.Section_Order__c, jsOrEmpty node.Section_Criteria__c)

/-- Pushing a field into the named section preserves every section's
name, order and criteria, so `find?` commutes with it. -/
theorem findSec_pushField (l : List Section) (node : RawNode) (name : String) :
    (l.map (fun g => if g.name == secNameOf node
        then { g with fields := g.fields ++ [mkFieldV1 node] } else g)).find?
      (fun g => g.name == name)
      = (l.find? (fun g => g.name == name)).map
          (fun g => if g.name == secNameOf node
            then { g with fields := g.fields ++ [mkFieldV1 node] } else g) := by
  rw [List.find?_map]
  have hpred : ((fun g : Section => g.name == name) ∘ (fun g =>
      if g.name == secNameOf node
        then { g with fields := g.fields ++ [mkFieldV1 node] } else g))
      = (fun g : Section => g.name == name) := by
    funext g
    by_cases h : g.name = secNameOf node <;> simp [h]
  rw [hpred]

/-- One grouping step, seen through `findSec` and the projection. -/
theorem findSec_v1Insert (acc : List Section) (node : RawNode) (name : String) :
    (findSec (v1Insert acc node) name).map v1Proj
      = ((findSec acc name).map v1Proj).or
          (if secNameOf node == name then some (v1NodeProj node) else none) := by
  simp only [v1Insert, findSec]
  by_cases hex : (acc.find? (fun g => g.name == secNameOf node)).isSome = true
  · rw [if_pos hex, findSec_pushField]
    cases hf : acc.find? (fun g => g.name == name) with
    | some g =>
      by_cases h : g.name = secNameOf node <;> simp [hf, h, v1Proj]
    | none =>
      cases hsn : (secNameOf node == name) with
      | true =>
        exfalso
        rw [beq_iff_eq.mp hsn, hf] at hex
        exact absurd hex (by simp)
      | false => simp [hf]
  · rw [if_neg hex, List.map_append, List.find?_append, findSec_pushField]
    cases hf : acc.find? (fun g => g.name == name) with
    | some g =>
      by_cases h : g.name = secNameOf node <;> simp [hf, h, v1Proj]
    | none =>
      simp only [hf, Option.map_none', Option.none_or, List.map_cons, List.map_nil]
      cases hsn : (secNameOf node == name) with
      | true =>
        rw [List.find?_cons_of_pos _ (by simpa using hsn)]
        simp [v1Proj, v1NodeProj]
      | false =>
        rw [List.find?_cons_of_neg _ (by simpa using hsn)]
        simp

/-- The whole grouping fold, seen through `findSec` and the projection:
the first record of a name decides its order and criteria. -/
theorem v1_fold_spec (edges : List RawNode) (acc : List Section) (name : String) :
    (findSec (edges.foldl v1Insert acc) name).map v1Proj
      = ((findSec acc name).map v1Proj).or
          ((edges.find? (fun n => secNameOf n == name)).map v1NodeProj) := by
  induction edges generalizing acc with
  | nil => cases h : findSec acc name <;> simp [h]
  | cons n es ih =>
    rw [List.foldl_cons, ih, findSec_v1Insert, Option.or_assoc]
    congr 1
    cases hsn : (secNameOf n == name) with
    | true =>
      rw [List.find?_cons_of_pos _ (by simpa using hsn)]
      simp
    | false =>
      rw [List.find?_cons_of_neg _ (by simpa using hsn)]
      simp

/-- The grouping fold never produces two sections with the same name. -/
theorem v1_names_nodup (edges : List RawNode) (acc : List Section)
    (hacc : (acc.map Section.name).Nodup) :
    ((edges.foldl v1Insert acc).map Section.name).Nodup := by
  induction edges generalizing acc with
  | nil => exact hacc
  | cons n es ih =>
    rw [List.foldl_cons]
    apply ih
    simp only [v1Insert]
    have hnames : ∀ l : List Section,
        ((l.map (fun g => if g.name == secNameOf n
            then { g with fields := g.fields ++ [mkFieldV1 n] } else g)).map
          Section.name) = l.map Section.name := by
      intro l
      rw [List.map_map]
      apply List.map_congr_left
      intro g _
      by_cases h : g.name = secNameOf n <;> simp [h]
    by_cases hex : (acc.find? (fun g => g.name == secNameOf n)).isSome = true
    · rw [if_pos hex, hnames]
      exact hacc
    · rw [if_neg hex, hnames, List.map_append]
      simp only [List.map_cons, List.map_nil]
      apply List.Nodup.append hacc (List.nodup_singleton _)
      intro a ha hb
      rw [List.mem_singleton] at hb
      subst hb
      rw [List.mem_map] at ha
      obtain ⟨g, hg, hgname⟩ := ha
      refine hex ?_
      rw [List.find?_isSome]
      exact ⟨g, hg, by simp [hgname]⟩

/-- With pairwise-distinct names, `findSec` at a member's name returns
exactly that member. -/
theorem findSec_of_mem {l : List Section}
    (hnd : (l.map Section.name).Nodup) {g : Section} (hg : g ∈ l) :
    findSec l g.name = some g := by
  induction l with
  | nil => cases hg
  | cons h t ih =>
    rw [List.map_cons, List.nodup_cons] at hnd
    obtain ⟨hnm, hnd'⟩ := hnd
    rcases List.mem_cons.mp hg with rfl | hg'
    · unfold findSec
      rw [List.find?_cons_of_pos _ (by simp)]
    · have hne : (h.name == g.name) = false := by
        rw [beq_eq_false_iff_ne]
        intro e
        exact hnm (e ▸ List.mem_map_of_mem Section.name hg')
      unfold findSec
      rw [List.find?_cons_of_neg _ (by simp [hne])]
      exact ih hnd' hg'

/-- Revision-1 "first record wins" merge policy, at the built schema:
the order and criteria of every built section are those declared by the
first raw record carrying its section name. -/
theorem buildSections_v1_firstRecord (edges : List RawNode) (sec : Section)
    (hmem : sec ∈ buildSections_v1 edges) :
    (edges.find? (fun n => secNameOf n == sec.name)).map v1NodeProj
      = some (v1Proj sec) := by
  simp only [buildSections_v1] at hmem
  have hmem' := (List.perm_insertionSort v1SectionRel _).mem_iff.mp hmem
  simp only [List.mem_map] at hmem'
  obtain ⟨g, hg, rfl⟩ := hmem'
  have hnd : ((edges.foldl v1Insert []).map Section.name).Nodup :=
    v1_names_nodup edges [] (by simp)
  have hfind : findSec (edges.foldl v1Insert []) g.name = some g :=
    findSec_of_mem hnd hg
  have hspec := v1_fold_spec edges [] g.name
  rw [hfind] at hspec
  simp only [Option.map_some', findSec, List.find?_nil, Option.map_none',
    Option.none_or] at hspec
  exact hspec.symm

/-- The order stored for a name in the revision-2 grouping map. -/
def findOrder (l : List (String × EntryV2)) (name : String) : Option JsNumber :=
  (l.find? (fun p => p.1 == name)).map (fun p => p.2.order)

/-- The order a raw edge declares for the given section name, when it
carries that name. -/
def contribOrder (onode : Option RawNode) (name : String) : Option JsNumber :=
  match onode with
  | none => none
  | some node =>
    if secNameOf node == name then some (v2OrderOf node.Section_Order__c) else none

/-- All orders the edges declare for the given section name, in edge
order. -/
def ordersFor (edges : List (Option RawNode)) (name : String) : List JsNumber :=
  edges.filterMap (fun o => contribOrder o name)

/-- One revision-2 grouping step, seen through `findOrder`: a
contributing record merges by `Math.min`, a first record installs its
order, and the field push never changes it. -/
theorem findOrder_v2Step (acc : List (String × EntryV2))
    (onode : Option RawNode) (name : String) :
    findOrder (v2Step acc onode) name
      = match findOrder acc name, contribOrder onode name with
        | some o, some v => some (jsMin o v)
        | some o, none => some o
        | none, some v => some v
        | none, none => none := by
  cases onode with
  | none =>
    cases h : findOrder acc name <;> simp [v2Step, contribOrder, h]
  | some node =>
    simp only [v2Step, contribOrder, findOrder]
    by_cases hex : (acc.find? (fun p => p.1 == secNameOf node)).isSome = true
    · rw [if_pos hex, List.map_map, List.find?_map]
      have hpred : ((fun p : String × EntryV2 => p.1 == name) ∘
          ((fun p : String × EntryV2 =>
            if p.1 == secNameOf node then
              (p.1, { order := p.2.order,
                      fields := p.2.fields ++ [mkFieldV2 node (secNameOf node)] })
            else p) ∘
           (fun p : String × EntryV2 =>
            if p.1 == secNameOf node then
              (p.1, { order := jsMin p.2.order (v2OrderOf node.Section_Order__c),
                      fields := p.2.fields })
            else p)))
          = (fun p : String × EntryV2 => p.1 == name) := by
        funext p
        by_cases h : p.1 = secNameOf node <;> simp [h]
      rw [hpred]
      cases hf : acc.find? (fun p => p.1 == name) with
      | some p =>
        have hp : (p.1 == name) = true := by simpa using List.find?_some hf
        by_cases h : p.1 = secNameOf node
        · have hsn : (secNameOf node == name) = true := by
            rw [beq_iff_eq, ← h]
            exact beq_iff_eq.mp hp
          simp [h, hsn]
        · have hsn : (secNameOf node == name) = false := by
            rw [beq_eq_false_iff_ne]
            intro e
            exact h ((beq_iff_eq.mp hp).trans e.symm)
          simp [h, hsn]
      | none =>
        cases hsn : (secNameOf node == name) with
        | true =>
          exfalso
          rw [beq_iff_eq.mp hsn, hf] at hex
          exact absurd hex (by simp)
        | false => simp
    · rw [if_neg hex, List.map_append, List.find?_append, List.find?_map]
      have hpred : ((fun p : String × EntryV2 => p.1 == name) ∘
          (fun p : String × EntryV2 =>
            if p.1 == secNameOf node then
              (p.1, { order := p.2.order,
                      fields := p.2.fields ++ [mkFieldV2 node (secNameOf node)] })
            else p))
          = (fun p : String × EntryV2 => p.1 == name) := by
        funext p
        by_cases h : p.1 = secNameOf node <;> simp [h]
      rw [hpred]
      cases hf : acc.find? (fun p => p.1 == name) with
      | some p =>
        have hp : (p.1 == name) = true := by simpa using List.find?_some hf
        have hpmem := List.mem_of_find?_eq_some hf
        have h : ¬ p.1 = secNameOf node := by
          intro e
          refine hex ?_
          rw [List.find?_isSome]
          exact ⟨p, hpmem, by simp [e]⟩
        have hsn : ¬ secNameOf node = name := by
          intro e
          exact h ((beq_iff_eq.mp hp).trans e.symm)
        simp [h, hsn]
      | none =>
        simp only [Option.map_none', Option.none_or, List.map_cons, List.map_nil]
        cases hsn : (secNameOf node == name) with
        | true =>
          rw [List.find?_cons_of_pos _ (by simpa using hsn)]
          simp
        | false =>
          rw [List.find?_cons_of_neg _ (by simpa using hsn)]
          simp

/-- The whole revision-2 grouping fold, seen through `findOrder`: it
left-folds `Math.min` over the declared orders. -/
theorem findOrder_foldl_v2 (edges : List (Option RawNode))
    (acc : List (String × EntryV2)) (name : String) :
    findOrder (edges.foldl v2Step acc) name
      = match findOrder acc name, ordersFor edges name with
        | some o, os => some (os.foldl jsMin o)
        | none, [] => none
        | none, o :: os => some (os.foldl jsMin o) := by
  induction edges generalizing acc with
  | nil =>
    cases h : findOrder acc name <;> simp [ordersFor, h]
  | cons e es ih =>
    rw [List.foldl_cons, ih]
    rw [findOrder_v2Step]
    have hfor : ordersFor (e :: es) name
        = match contribOrder e name with
          | some v => v :: ordersFor es name
          | none => ordersFor es name := by
      cases hc : contribOrder e name <;> simp [ordersFor, List.filterMap_cons, hc]
    rw [hfor]
    cases hacc : findOrder acc name <;> cases hc : contribOrder e name <;> simp

theorem jsMin_choice (a b : JsNumber) : jsMin a b = a ∨ jsMin a b = b := by
  cases a <;> cases b <;>
    first
      | (left; rfl)
      | (right; rfl)
      | (simp only [jsMin]
         split
         · left; rfl
         · right; rfl)

theorem foldl_jsMin_mem (os : List JsNumber) (o : JsNumber) :
    os.foldl jsMin o ∈ o :: os := by
  induction os generalizing o with
  | nil => simp
  | cons v vs ih =>
    rw [List.foldl_cons]
    rcases jsMin_choice o v with he | he <;> rw [he]
    · rcases List.mem_cons.mp (ih o) with h' | h'
      · rw [h']; exact List.mem_cons_self _ _
      · exact List.mem_cons_of_mem _ (List.mem_cons_of_mem _ h')
    · rcases List.mem_cons.mp (ih v) with h' | h'
      · rw [h']; exact List.mem_cons_of_mem _ (List.mem_cons_self _ _)
      · exact List.mem_cons_of_mem _ (List.mem_cons_of_mem _ h')

theorem jsNLe_refl_notNan {a : JsNumber} (ha : a ≠ .nan) : jsNLe a a = true := by
  cases a <;> simp_all [jsNLe] <;> exact fracLe_refl _

theorem jsNLe_trans {a b c : JsNumber} (h1 : jsNLe a b = true)
    (h2 : jsNLe b c = true) : jsNLe a c = true := by
  cases a <;> cases b <;> cases c <;> simp_all [jsNLe] <;> exact fracLe_trans h1 h2

theorem jsMin_notNan {a b : JsNumber} (ha : a ≠ .nan) (hb : b ≠ .nan) :
    jsMin a b ≠ .nan := by
  cases a <;> cases b <;> simp_all [jsMin] <;> split <;> simp

theorem jsNLe_min_left {a b : JsNumber} (ha : a ≠ .nan) (hb : b ≠ .nan) :
    jsNLe (jsMin a b) a = true := by
  cases a with
  | nan => exact absurd rfl ha
  | posInf => cases b <;> simp_all [jsMin, jsNLe] <;> exact fracLe_refl _
  | negInf => cases b <;> simp_all [jsMin, jsNLe]
  | num qa =>
    cases b with
    | nan => exact absurd rfl hb
    | posInf => simp [jsMin, jsNLe, fracLe_refl]
    | negInf => simp [jsMin, jsNLe]
    | num qb =>
      simp only [jsMin, jsNLe]
      split
      · exact fracLe_refl _
      · rcases fracLe_total qa qb with h | h
        · simp_all
        · exact h

theorem jsNLe_min_right {a b : JsNumber} (ha : a ≠ .nan) (hb : b ≠ .nan) :
    jsNLe (jsMin a b) b = true := by
  cases a with
  | nan => exact absurd rfl ha
  | posInf => cases b <;> simp_all [jsMin, jsNLe] <;> exact fracLe_refl _
  | negInf => cases b <;> simp_all [jsMin, jsNLe]
  | num qa =>
    cases b with
    | nan => exact absurd rfl hb
    | posInf => simp [jsMin, jsNLe]
    | negInf => simp [jsMin, jsNLe]
    | num qb =>
      simp only [jsMin, jsNLe]
      split
      · assumption
      · exact fracLe_refl _

theorem foldl_jsMin_le (os : List JsNumber) (o : JsNumber) (ho : o ≠ .nan)
    (hos : ∀ x ∈ os, x ≠ .nan) :
    jsNLe (os.foldl jsMin o) o = true
    ∧ ∀ x ∈ os, jsNLe (os.foldl jsMin o) x = true := by
  induction os generalizing o with
  | nil => exact ⟨jsNLe_refl_notNan ho, by simp⟩
  | cons v vs ih =>
    have hv : v ≠ .nan := hos v (List.mem_cons_self _ _)
    have hvs : ∀ x ∈ vs, x ≠ .nan := fun x hx => hos x (List.mem_cons_of_mem _ hx)
    have hmin : jsMin o v ≠ .nan := jsMin_notNan ho hv
    obtain ⟨ha, hb⟩ := ih (jsMin o v) hmin hvs
    rw [List.foldl_cons]
    refine ⟨jsNLe_trans ha (jsNLe_min_left ho hv), ?_⟩
    intro x hx
    rcases List.mem_cons.mp hx with rfl | hx'
    · exact jsNLe_trans ha (jsNLe_min_right ho hv)
    · exact hb x hx'

/-- First raw record of the duplicate pair: section "A", order 5, empty
criteria. -/
def c5Node1 : RawNode :=
  { Asset_Attribute__c := some "X", Asset_Type__c := some "text",
    Picklist_Values__c := none, Section__c := some "A",
    Section_Order__c := some "5", Field_Order__c := some "1",
    Section_Criteria__c := some "", Field_Criteria__c := none }

/-- Second raw record of the pair: same section "A", smaller order 3
and a non-empty criteria. -/
def c5Node2 : RawNode :=
  { c5Node1 with
      Section_Order__c := some "3"
      Section_Criteria__c := some "[A].[X]\x7bYes\x7d"
      Asset_Attribute__c := some "Y"
      Field_Order__c := some "2" }

/-- C5 counterexample: two records declare section "A" with orders 5
then 3 and criteria "" then a non-empty rule.  The claim predicts the
built section carries order 3 (the minimum) and the first non-empty
criteria; the builder that stores criteria (revision 1, lines 54-64)
keeps the FIRST record's order 5 and empty criteria — later duplicates
never even reach the section object. -/
theorem c5_counterexample :
    (buildSections_v1 [c5Node1, c5Node2]).map v1Proj
      = [(.num ⟨5, 0⟩, "")]
    ∧ ¬ (buildSections_v1 [c5Node1, c5Node2]).map v1Proj
        = [(.num ⟨3, 0⟩, "[A].[X]\x7bYes\x7d")] := by
  decide

/-- C5 amended: when multiple raw records declare the same section name,
the builder that stores section criteria (revision 1) takes both the
order and the criteria of the FIRST record for that name — later
duplicates never overwrite either, so neither "minimum order" nor
"first non-empty criteria" holds there; the later builder (revision 2,
which stores no criteria) does keep a minimum: provided every declared
order parses to a non-NaN number, the grouped entry's order is one of
the declared orders and is `<=` all of them. -/
theorem c5_amended :
    (∀ (edges : List RawNode) (sec : Section), sec ∈ buildSections_v1 edges →
        (edges.find? (fun n => secNameOf n == sec.name)).map v1NodeProj
          = some (v1Proj sec))
  ∧ (∀ (edges : List (Option RawNode)) (name : String) (o : JsNumber)
        (os : List JsNumber),
        ordersFor edges name = o :: os →
        (∀ x ∈ o :: os, x ≠ JsNumber.nan) →
        ∃ e : JsNumber, findOrder (edges.foldl v2Step []) name = some e
          ∧ e ∈ o :: os ∧ ∀ x ∈ o :: os, jsNLe e x = true) := by
  constructor
  · exact fun edges sec h => buildSections_v1_firstRecord edges sec h
  · intro edges name o os hord hnan
    have hfold := findOrder_foldl_v2 edges [] name
    rw [hord] at hfold
    have h0 : findOrder [] name = none := rfl
    rw [h0] at hfold
    refine ⟨os.foldl jsMin o, hfold, foldl_jsMin_mem os o, ?_⟩
    have ho : o ≠ JsNumber.nan := hnan o (List.mem_cons_self _ _)
    have hos : ∀ y ∈ os, y ≠ JsNumber.nan :=
      fun y hy => hnan y (List.mem_cons_of_mem _ hy)
    obtain ⟨ha, hb⟩ := foldl_jsMin_le os o ho hos
    intro x hx
    rcases List.mem_cons.mp hx with rfl | hx'
    · exact ha
    · exact hb x hx'

/-- The section revision 1 builds from `c5Node1` alone. -/
def c5SecW : Section :=
  { name := "A", sectionOrder := .num ⟨5, 0⟩, sectionCriteria := "",
    fields := [{ mkFieldV1 c5Node1 with isVisible := true }],
    isVisible := true, renderKey := none }

/-- Witness for C5's amended theorem at the concrete duplicate pair. -/
theorem c5_amended_witness :
    ((([c5Node1] : List RawNode).find?
        (fun n => secNameOf n == c5SecW.name)).map v1NodeProj
      = some (v1Proj c5SecW))
    ∧ ∃ e : JsNumber,
        findOrder (([some c5Node1, some c5Node2] :
          List (Option RawNode)).foldl v2Step []) "A" = some e
        ∧ e ∈ [JsNumber.num ⟨5, 0⟩, JsNumber.num ⟨3, 0⟩]
        ∧ ∀ x ∈ [JsNumber.num ⟨5, 0⟩, JsNumber.num ⟨3, 0⟩], jsNLe e x = true :=
  ⟨c5_amended.1 [c5Node1] c5SecW (by decide),
   c5_amended.2 [some c5Node1, some c5Node2] "A" (.num ⟨5, 0⟩) [.num ⟨3, 0⟩]
     (by decide) (by decide)⟩

end Suez
